import Mathlib

/-!
Formal model of the `sparse_mdp` discrete-environment subsystem
(`sparse_mdp/environment.py`): index spaces, transition kernels, and the four
world builders (GraphWorld, Gridworld, NoisyGridworld, Taskworld).

Probabilities are modelled exactly as rationals (`ℚ`); the Python floats only
ever take values produced by the exact arithmetic modelled here, so exact
row sums equal to 1 imply the 1e-9-tolerance statements.

States are modelled symbolically: a `DiscreteSpace` (from `spaces.py`, absent
from the source tree and therefore modelled from the spec, section 4.1) is a
bijection between a duplicate-free element list and dense indices, so a
kernel indexed through `enumerate` is isomorphic to a kernel indexed by the
symbolic elements themselves.  The world-builder kernels below are therefore
functions `state → action → state → ℚ`.
-/

namespace OnlineIRL

/-- Grid coordinates, the `(x, y)` integer pairs of the Python code. -/
abbrev Coord := ℤ × ℤ

/-- The list `range(n)` viewed inside `ℤ`. -/
def intRange (n : ℕ) : List ℤ := List.map (fun i : ℕ => (i : ℤ)) (List.range n)

/-- The candidate location grid
`[(x, y) for x in range(shape[0]) for y in range(shape[1])]`
(shared by all four builders). -/
def gridStates (w h : ℕ) : List Coord := intRange w ×ˢ intRange h

/-- A 2-D numeric blocked mask together with its own shape, modelling the
`blocked` array argument of the builders.  Entries are numeric; a cell is
blocked when its entry is nonzero (`blocked[x, y] != 0`). -/
structure BlockedMask where
  w : ℕ
  h : ℕ
  entry : ℤ → ℤ → ℤ

/-- Bounds-checked array read `blocked[x, y]`; `none` models the IndexError a
numpy array raises on an out-of-range index.  (Construction only ever reads
nonnegative coordinates, so negative-index wrap-around never arises.) -/
def BlockedMask.get (m : BlockedMask) (x y : ℤ) : Option ℤ :=
  if 0 ≤ x ∧ x < (m.w : ℤ) ∧ 0 ≤ y ∧ y < (m.h : ℤ) then some (m.entry x y) else none

/-- The blocked-cell collection loop
`for x, y in states: if blocked[x, y] != 0: self.blocked_cells.add((x, y))`.
The result is a Python set, used only for membership and removal, so it is
modelled as the (duplicate-free) list of blocked coordinates in grid order;
`none` models the IndexError raised when the mask is too small. -/
def collectBlocked (m : BlockedMask) : List Coord → Option (List Coord)
  | [] => some []
  | p :: rest =>
    match m.get p.1 p.2 with
    | none => none
    | some v => (collectBlocked m rest).map (fun bs => if v ≠ 0 then p :: bs else bs)

/-- The removal loop `for x, y in self.blocked_cells: states.remove((x, y))`. -/
def removeAll (l : List Coord) (bs : List Coord) : List Coord := bs.foldl List.erase l

/-- The state list of GraphWorld and Gridworld: the full grid with the blocked
cells removed. -/
def gwStates (w h : ℕ) (bs : List Coord) : List Coord := removeAll (gridStates w h) bs

/-- The construction prefix shared by the grid builders: compute the
blocked-cell set from the optional mask (this is the step that can fail when
the mask is smaller than the declared shape) and remove it from the grid.
Returns `(states, blocked_cells)`. -/
def gridworldBuild (w h : ℕ) (mask : Option BlockedMask) : Option (List Coord × List Coord) :=
  match mask with
  | none => some (gridStates w h, [])
  | some m => (collectBlocked m (gridStates w h)).map
      (fun bs => (removeAll (gridStates w h) bs, bs))

/-- Gridworld actions `'up', 'right', 'down', 'left'` and optionally `'stay'`. -/
inductive GWAction where
  | up
  | right
  | down
  | left
  | stay
  deriving DecidableEq

/-- `actions = ['up', 'right', 'down', 'left']`, appending `'stay'` when
`can_stay`. -/
def gwActions (canStay : Bool) : List GWAction :=
  [.up, .right, .down, .left] ++ if canStay then [.stay] else []

/-- The per-action coordinate delta:
`x += {'left': -1, 'right': 1}.get(action, 0)` and
`y += {'up': -1, 'down': 1}.get(action, 0)`. -/
def gwDelta : GWAction → Coord
  | .up => (0, -1)
  | .right => (1, 0)
  | .down => (0, 1)
  | .left => (-1, 0)
  | .stay => (0, 0)

/-- The shifted coordinate `(x + dx, y + dy)`. -/
def moveTarget (s d : Coord) : Coord := (s.1 + d.1, s.2 + d.2)

/-- The successor computed by `Gridworld.__set_transitions`: shift by the
action delta, falling back to the original state when the target is not in
the state space or is blocked. -/
def gwSucc (w h : ℕ) (bs : List Coord) (s : Coord) (a : GWAction) : Coord :=
  if moveTarget s (gwDelta a) ∉ gwStates w h bs ∨ moveTarget s (gwDelta a) ∈ bs then s
  else moveTarget s (gwDelta a)

/-- GraphWorld actions
`[(i, j) for i in range(-radius, radius + 1) for j in range(-radius, radius + 1)]`,
with `(0, 0)` removed when `can_stay` is false.  `range(-r, r + 1)` is
modelled as `List.range (2r + 1)` shifted down by `r`. -/
def intRangeSym (r : ℕ) : List ℤ := List.map (fun i : ℕ => (i : ℤ) - r) (List.range (2 * r + 1))

def graphActions (r : ℕ) (canStay : Bool) : List Coord :=
  let l := intRangeSym r ×ˢ intRangeSym r
  if canStay then l else l.erase (0, 0)

/-- The successor computed by `GraphWorld.__set_transitions`: the action is
itself the coordinate offset. -/
def graphSucc (w h : ℕ) (bs : List Coord) (s : Coord) (a : Coord) : Coord :=
  if moveTarget s a ∉ gwStates w h bs ∨ moveTarget s a ∈ bs then s
  else moveTarget s a

/-- A transition kernel over symbolic states and actions.  `spaces.py` and
`transition.py` are absent from the source tree; per the spec (section 4.2)
the dense and sparse backings have identical point-read / point-write /
sample semantics with unset cells read as 0, so one functional model covers
both. -/
def Kernel (σ α : Type) : Type := σ → α → σ → ℚ

/-- Point write `T[s, a, t] = p`. -/
def Kernel.set {σ α : Type} [DecidableEq σ] [DecidableEq α]
    (K : Kernel σ α) (s : σ) (a : α) (t : σ) (p : ℚ) : Kernel σ α :=
  fun u b v => if u = s ∧ b = a ∧ v = t then p else K u b v

/-- The freshly allocated kernel: every cell reads 0. -/
def Kernel.zero (σ α : Type) : Kernel σ α := fun _ _ _ => 0

/-- The deterministic fill loop shared by GraphWorld, Gridworld and Taskworld:
`for state, action in [(s, a) for s in stateSpace for a in actionSpace]`,
writing probability 1 at the computed successor of each pair. -/
def detFill {σ α : Type} [DecidableEq σ] [DecidableEq α]
    (succ : σ → α → σ) (pairs : List (σ × α)) : Kernel σ α :=
  pairs.foldl (fun K p => K.set p.1 p.2 (succ p.1 p.2) 1) (Kernel.zero σ α)

/-- The kernel built by `Gridworld.__init__`. -/
def gwKernel (w h : ℕ) (bs : List Coord) (canStay : Bool) : Kernel Coord GWAction :=
  detFill (gwSucc w h bs) (gwStates w h bs ×ˢ gwActions canStay)

/-- The kernel built by `GraphWorld.__init__`. -/
def graphKernel (w h : ℕ) (bs : List Coord) (r : ℕ) (canStay : Bool) : Kernel Coord Coord :=
  detFill (graphSucc w h bs) (gwStates w h bs ×ˢ graphActions r canStay)

/-- The five drift offsets of `NoisyGridworld.__update_transitions`. -/
def driftOffsets : List Coord := [(0, 0), (0, -1), (0, 1), (-1, 0), (1, 0)]

/-- The drift targets `(state[0] + dx, state[1] + dy)` of a state. -/
def driftTargets (s : Coord) : List Coord :=
  driftOffsets.map (fun d => moveTarget s d)

/-- The set `valid_next_states`: drift targets that are in the state space and
not blocked. -/
def validNextStates (w h : ℕ) (bs : List Coord) (s : Coord) : List Coord :=
  (driftTargets s).filter (fun t => decide (t ∈ gwStates w h bs ∧ t ∉ bs))

/-- First half of the update loop: for each drift target in the state space,
`self.transition[...] *= (1 - noise)`. -/
def scalePass (w h : ℕ) (bs : List Coord) (noise : ℚ) (s : Coord) (a : GWAction)
    (K : Kernel Coord GWAction) : Kernel Coord GWAction :=
  (driftTargets s).foldl
    (fun K t => if t ∈ gwStates w h bs then K.set s a t (K s a t * (1 - noise)) else K) K

/-- Second loop: for each valid next state,
`self.transition[...] += noise / len(valid_next_states)`. -/
def addPass (w h : ℕ) (bs : List Coord) (noise : ℚ) (s : Coord) (a : GWAction)
    (K : Kernel Coord GWAction) : Kernel Coord GWAction :=
  (validNextStates w h bs s).foldl
    (fun K t => K.set s a t (K s a t + noise / ((validNextStates w h bs s).length : ℚ))) K

/-- `NoisyGridworld.__update_transitions` for one `(state, action)` pair. -/
def noisyUpdate (w h : ℕ) (bs : List Coord) (noise : ℚ)
    (K : Kernel Coord GWAction) (s : Coord) (a : GWAction) : Kernel Coord GWAction :=
  addPass w h bs noise s a (scalePass w h bs noise s a K)

/-- The kernel built by `NoisyGridworld.__init__`: the deterministic Gridworld
fill followed by the redistribution pass over every `(state, action)` pair. -/
def noisyKernel (w h : ℕ) (bs : List Coord) (canStay : Bool) (noise : ℚ) :
    Kernel Coord GWAction :=
  (gwStates w h bs ×ˢ gwActions canStay).foldl
    (fun K p => noisyUpdate w h bs noise K p.1 p.2) (gwKernel w h bs canStay)

/-- Taskworld actions `'up', 'right', 'down', 'left', 'operate'` and
optionally `'stay'`. -/
inductive TWAction where
  | up
  | right
  | down
  | left
  | operate
  | stay
  deriving DecidableEq

def twActions (canStay : Bool) : List TWAction :=
  [.up, .right, .down, .left, .operate] ++ if canStay then [.stay] else []

/-- Taskworld coordinate deltas: `'operate'` (like `'stay'`) is absent from
both dictionaries, so it moves by `(0, 0)`. -/
def twDelta : TWAction → Coord
  | .up => (0, -1)
  | .right => (1, 0)
  | .down => (0, 1)
  | .left => (-1, 0)
  | .operate => (0, 0)
  | .stay => (0, 0)

/-- `product([False, True], repeat=n)`: all boolean task-completion vectors of
length `n`, first coordinate varying slowest. -/
def taskSpace : ℕ → List (List Bool)
  | 0 => [[]]
  | n + 1 => [false, true].flatMap (fun b => (taskSpace n).map (fun v => b :: v))

/-- A Taskworld symbolic state: a location paired with a task-completion
vector. -/
abbrev TWState := Coord × List Bool

/-- `self.locations` after blocked-cell removal (the same computation as the
Gridworld state list). -/
def twLocations (w h : ℕ) (bs : List Coord) : List Coord := gwStates w h bs

/-- The Taskworld state list
`[(location, task) for location in self.locations for task in taskSpace]`. -/
def twStates (w h : ℕ) (bs : List Coord) (numTasks : ℕ) : List TWState :=
  twLocations w h bs ×ˢ taskSpace numTasks

/-- The successor computed by `Taskworld.__set_transitions`: the location
follows the Gridworld movement rule against `self.locations`, and `'operate'`
at a task location sets that task's completion bit (at index
`taskLocations.index(location)`) to `True`. -/
def twSucc (w h : ℕ) (bs : List Coord) (taskLocs : List Coord)
    (st : TWState) (a : TWAction) : TWState :=
  (if moveTarget st.1 (twDelta a) ∉ twLocations w h bs ∨ moveTarget st.1 (twDelta a) ∈ bs
   then st.1 else moveTarget st.1 (twDelta a),
   if a = .operate ∧ st.1 ∈ taskLocs then st.2.set (taskLocs.indexOf st.1) true else st.2)

/-- The kernel built by `Taskworld.__init__`. -/
def twKernel (w h : ℕ) (bs : List Coord) (taskLocs : List Coord) (canStay : Bool) :
    Kernel TWState TWAction :=
  detFill (twSucc w h bs taskLocs) (twStates w h bs taskLocs.length ×ˢ twActions canStay)

/-- The kernel row `{t : T[s][a][t]}` summed over the state space. -/
def rowSum {σ α : Type} (S : List σ) (K : Kernel σ α) (s : σ) (a : α) : ℚ :=
  (S.map (fun t => K s a t)).sum

/-- A coordinate lies inside the `shape = (w, h)` grid. -/
def inBounds (w h : ℕ) (p : Coord) : Prop :=
  0 ≤ p.1 ∧ p.1 < (w : ℤ) ∧ 0 ≤ p.2 ∧ p.2 < (h : ℤ)

instance (w h : ℕ) (p : Coord) : Decidable (inBounds w h p) := by
  unfold inBounds
  infer_instance

/-- Modelled from the spec: `spaces.py` is absent from the source tree.  Per
section 4.1 a `DiscreteSpace` is an ordered sequence of unique symbolic
elements with a dense index assignment. -/
structure DiscreteSpace (σ : Type) where
  elems : List σ

def DiscreteSpace.size {σ : Type} (sp : DiscreteSpace σ) : ℕ := sp.elems.length

/-- Modelled from the spec: `index(element)` is an integer in `[0, size)`, or
a LookupError (`none`) when the element was never registered. -/
def DiscreteSpace.indexValue {σ : Type} [DecidableEq σ] (sp : DiscreteSpace σ) (x : σ) :
    Option ℕ :=
  if x ∈ sp.elems then some (sp.elems.indexOf x) else none

/-- Modelled from the spec: `element(index)` is the inverse lookup
(`stateSpace[n]`); an out-of-range index is a LookupError (`none`). -/
def DiscreteSpace.elementValue {σ : Type} (sp : DiscreteSpace σ) (i : ℕ) : Option σ :=
  sp.elems[i]?

/-- The error classes raised by the modelled operations.  Python's IndexError
is a subclass of LookupError, so both surface here as `lookupError`. -/
inductive PyError where
  | lookupError
  deriving DecidableEq

/-- The fields of a `DiscreteEnvironment`: state and action spaces, an
(index-addressed) transition kernel, the terminal-state set, the designated
initial state and the current-state cursor. -/
structure EnvModel (σ α : Type) where
  stateSpace : DiscreteSpace σ
  actionSpace : DiscreteSpace α
  transition : ℕ → ℕ → ℕ → ℚ
  terminalStates : List σ
  initialState : σ
  currentState : σ

/-- Modelled from the spec: `transition.py` is absent from the source tree.
Per section 4.2, `sample(s, a)` draws a next-state index according to the
categorical distribution formed by the row; this is the inverse-CDF scan for
a supplied uniform draw `u`. -/
def sampleScan : List ℚ → ℚ → ℕ
  | [], _ => 0
  | p :: rest, u => if u < p then 0 else sampleScan rest (u - p) + 1

/-- The categorical sample for the kernel row at state index `si` and action
index `ai`. -/
def sampleRow {σ α : Type} (env : EnvModel σ α) (si ai : ℕ) (u : ℚ) : ℕ :=
  sampleScan ((List.range env.stateSpace.size).map (fun k => env.transition si ai k)) u

/-- `DiscreteEnvironment.act`: look up the current state's index, then the
action's index, sample a next-state index from that kernel row, and move the
cursor to the sampled state, returning it.  A failed lookup raises before the
cursor assignment runs, so the environment comes back unchanged alongside the
error. -/
def EnvModel.act {σ α : Type} [DecidableEq σ] [DecidableEq α]
    (env : EnvModel σ α) (action : α) (u : ℚ) : Except PyError σ × EnvModel σ α :=
  match env.stateSpace.indexValue env.currentState with
  | none => (.error .lookupError, env)
  | some si =>
    match env.actionSpace.indexValue action with
    | none => (.error .lookupError, env)
    | some ai =>
      match env.stateSpace.elementValue (sampleRow env si ai u) with
      | none => (.error .lookupError, env)
      | some s' => (.ok s', { env with currentState := s' })

/-- `DiscreteEnvironment.reset`: `self.current_state = self.initial_state`. -/
def EnvModel.reset {σ α : Type} (env : EnvModel σ α) : EnvModel σ α :=
  { env with currentState := env.initialState }

/-! ### Basic facts about the grid and the blocked-cell removal -/

theorem mem_intRange {n : ℕ} {x : ℤ} : x ∈ intRange n ↔ 0 ≤ x ∧ x < (n : ℤ) := by
  simp only [intRange, List.mem_map, List.mem_range]
  constructor
  · rintro ⟨i, hi, rfl⟩
    omega
  · rintro ⟨h0, hn⟩
    exact ⟨x.toNat, by omega, by omega⟩

theorem intRange_nodup (n : ℕ) : (intRange n).Nodup :=
  (List.nodup_range n).map (fun _ _ h => by exact_mod_cast h)

theorem mem_gridStates {w h : ℕ} {p : Coord} : p ∈ gridStates w h ↔ inBounds w h p := by
  obtain ⟨x, y⟩ := p
  simp only [gridStates, List.mem_product, mem_intRange, inBounds]
  tauto

theorem gridStates_nodup (w h : ℕ) : (gridStates w h).Nodup :=
  (intRange_nodup w).product (intRange_nodup h)

theorem gridStates_length (w h : ℕ) : (gridStates w h).length = w * h := by
  simp [gridStates, List.length_product, intRange]

theorem removeAll_eq_filter (bs : List Coord) :
    ∀ l : List Coord, l.Nodup → removeAll l bs = l.filter (fun x => decide (x ∉ bs)) := by
  induction bs with
  | nil =>
    intro l _
    simp [removeAll]
  | cons b bs ih =>
    intro l hl
    have step : removeAll l (b :: bs) = removeAll (l.erase b) bs := rfl
    rw [step, ih (l.erase b) (hl.erase b), hl.erase_eq_filter, List.filter_filter]
    apply List.filter_congr
    intro x _
    simp only [List.mem_cons, decide_not, Bool.and_comm]
    by_cases hxb : x = b <;> by_cases hxbs : x ∈ bs <;> simp [hxb, hxbs]

theorem gwStates_eq_filter (w h : ℕ) (bs : List Coord) :
    gwStates w h bs = (gridStates w h).filter (fun x => decide (x ∉ bs)) :=
  removeAll_eq_filter bs (gridStates w h) (gridStates_nodup w h)

theorem mem_gwStates {w h : ℕ} {bs : List Coord} {p : Coord} :
    p ∈ gwStates w h bs ↔ inBounds w h p ∧ p ∉ bs := by
  rw [gwStates_eq_filter]
  simp [List.mem_filter, mem_gridStates]

theorem gwStates_nodup (w h : ℕ) (bs : List Coord) : (gwStates w h bs).Nodup := by
  rw [gwStates_eq_filter]
  exact (gridStates_nodup w h).filter _

/-! ### Evaluation of the kernel-filling folds

Each fill loop visits every `(state, action)` pair once and only writes cells
of that pair's row, so the final kernel can be described pointwise. -/

theorem Kernel.set_same {σ α : Type} [DecidableEq σ] [DecidableEq α]
    (K : Kernel σ α) (s : σ) (a : α) (t : σ) (p : ℚ) (v : σ) :
    K.set s a t p s a v = if v = t then p else K s a v := by
  simp [Kernel.set]

theorem Kernel.set_other {σ α : Type} [DecidableEq σ] [DecidableEq α]
    (K : Kernel σ α) (s : σ) (a : α) (t : σ) (p : ℚ) (u : σ) (b : α) (v : σ)
    (hne : u ≠ s ∨ b ≠ a) : K.set s a t p u b v = K u b v := by
  rcases hne with hne | hne <;> simp [Kernel.set, hne]

/-- A fold of row-local kernel updates over a duplicate-free pair list: the
row of a pair that occurs in the list is the update `φ` of that row of the
initial kernel; every other row is untouched. -/
theorem foldl_rowLocal_eval {σ α : Type} [DecidableEq σ] [DecidableEq α]
    (F : Kernel σ α → σ → α → Kernel σ α)
    (φ : σ → α → (σ → ℚ) → σ → ℚ)
    (hother : ∀ K s a u b t, u ≠ s ∨ b ≠ a → F K s a u b t = K u b t)
    (hrow : ∀ K s a t, F K s a s a t = φ s a (K s a) t)
    (pairs : List (σ × α)) (hnd : pairs.Nodup) (K0 : Kernel σ α) (s : σ) (a : α) (t : σ) :
    (pairs.foldl (fun K p => F K p.1 p.2) K0) s a t =
      if (s, a) ∈ pairs then φ s a (K0 s a) t else K0 s a t := by
  induction pairs generalizing K0 with
  | nil => simp
  | cons q rest ih =>
    rw [List.nodup_cons] at hnd
    rw [List.foldl_cons]
    by_cases hq : (s, a) = q
    · subst hq
      have hmem : ((s, a) : σ × α) ∉ rest := hnd.1
      rw [ih hnd.2, if_neg hmem, hrow, if_pos (List.mem_cons_self _ _)]
    · have hne : s ≠ q.1 ∨ a ≠ q.2 := by
        by_contra hc
        push_neg at hc
        exact hq (Prod.ext hc.1 hc.2)
      have hrowEq : (F K0 q.1 q.2) s a = K0 s a :=
        funext (fun v => hother K0 q.1 q.2 s a v hne)
      rw [ih hnd.2, hrowEq]
      simp [List.mem_cons, hq]

/-- Pointwise value of the deterministic fill shared by GraphWorld, Gridworld
and Taskworld. -/
theorem detFill_eval {σ α : Type} [DecidableEq σ] [DecidableEq α]
    (succ : σ → α → σ) (pairs : List (σ × α)) (hnd : pairs.Nodup)
    (s : σ) (a : α) (t : σ) :
    detFill succ pairs s a t =
      if (s, a) ∈ pairs then (if t = succ s a then 1 else 0) else 0 := by
  have h := foldl_rowLocal_eval
    (fun K s a => K.set s a (succ s a) 1)
    (fun s a row t => if t = succ s a then 1 else row t)
    (fun K s a u b t hne => Kernel.set_other K s a (succ s a) 1 u b t hne)
    (fun K s a t => Kernel.set_same K s a (succ s a) 1 t)
    pairs hnd (Kernel.zero σ α) s a t
  simpa [detFill, Kernel.zero] using h

/-- Evaluation of the guarded scaling fold of
`NoisyGridworld.__update_transitions`: each listed cell satisfying the guard
is multiplied by the factor exactly once (the target list is
duplicate-free). -/
theorem scaleFold_eval {σ α : Type} [DecidableEq σ] [DecidableEq α]
    (P : σ → Prop) [DecidablePred P] (c : ℚ) (s : σ) (a : α) :
    ∀ (l : List σ), l.Nodup → ∀ (K : Kernel σ α) (t : σ),
      (l.foldl (fun K x => if P x then K.set s a x (K s a x * c) else K) K) s a t =
        if t ∈ l ∧ P t then K s a t * c else K s a t := by
  intro l
  induction l with
  | nil => simp
  | cons x rest ih =>
    intro hnd K t
    rw [List.nodup_cons] at hnd
    rw [List.foldl_cons, ih hnd.2]
    by_cases hteqx : t = x
    · subst hteqx
      have htrest : t ∉ rest := hnd.1
      by_cases hPt : P t
      · simp [htrest, hPt, Kernel.set_same]
      · simp [htrest, hPt]
    · have hKx : (if P x then K.set s a x (K s a x * c) else K) s a t = K s a t := by
        by_cases hPx : P x
        · simp [hPx, Kernel.set, hteqx]
        · simp [hPx]
      rw [hKx]
      simp [List.mem_cons, hteqx]

theorem scaleFold_other {σ α : Type} [DecidableEq σ] [DecidableEq α]
    (P : σ → Prop) [DecidablePred P] (c : ℚ) (s : σ) (a : α) :
    ∀ (l : List σ) (K : Kernel σ α) (u : σ) (b : α) (t : σ), (u ≠ s ∨ b ≠ a) →
      (l.foldl (fun K x => if P x then K.set s a x (K s a x * c) else K) K) u b t = K u b t := by
  intro l
  induction l with
  | nil => simp
  | cons x rest ih =>
    intro K u b t hne
    rw [List.foldl_cons, ih _ u b t hne]
    by_cases hPx : P x
    · simp [hPx, Kernel.set_other _ _ _ _ _ _ _ _ hne]
    · simp [hPx]

/-- Evaluation of the unguarded increment fold (the
`noise / len(valid_next_states)` additions): each listed cell is incremented
exactly once. -/
theorem addFold_eval {σ α : Type} [DecidableEq σ] [DecidableEq α]
    (d : ℚ) (s : σ) (a : α) :
    ∀ (l : List σ), l.Nodup → ∀ (K : Kernel σ α) (t : σ),
      (l.foldl (fun K x => K.set s a x (K s a x + d)) K) s a t =
        if t ∈ l then K s a t + d else K s a t := by
  intro l
  induction l with
  | nil => simp
  | cons x rest ih =>
    intro hnd K t
    rw [List.nodup_cons] at hnd
    rw [List.foldl_cons, ih hnd.2]
    by_cases hteqx : t = x
    · subst hteqx
      simp [hnd.1, Kernel.set_same]
    · have hKx : (K.set s a x (K s a x + d)) s a t = K s a t := by
        simp [Kernel.set, hteqx]
      rw [hKx]
      simp [List.mem_cons, hteqx]

theorem addFold_other {σ α : Type} [DecidableEq σ] [DecidableEq α]
    (d : ℚ) (s : σ) (a : α) :
    ∀ (l : List σ) (K : Kernel σ α) (u : σ) (b : α) (t : σ), (u ≠ s ∨ b ≠ a) →
      (l.foldl (fun K x => K.set s a x (K s a x + d)) K) u b t = K u b t := by
  intro l
  induction l with
  | nil => simp
  | cons x rest ih =>
    intro K u b t hne
    rw [List.foldl_cons, ih _ u b t hne]
    exact Kernel.set_other _ _ _ _ _ _ _ _ hne

/-! ### Action lists and successors -/

theorem gwActions_nodup (canStay : Bool) : (gwActions canStay).Nodup := by
  cases canStay <;> decide

theorem intRangeSym_nodup (r : ℕ) : (intRangeSym r).Nodup := by
  apply List.Nodup.map
  · intro a b hab
    simpa using hab
  · exact List.nodup_range _

theorem graphActions_nodup (r : ℕ) (canStay : Bool) : (graphActions r canStay).Nodup := by
  have hprod : ((intRangeSym r) ×ˢ (intRangeSym r)).Nodup :=
    (intRangeSym_nodup r).product (intRangeSym_nodup r)
  unfold graphActions
  cases canStay
  · simpa using hprod.erase _
  · simpa using hprod

theorem driftTargets_nodup (s : Coord) : (driftTargets s).Nodup := by
  apply List.Nodup.map
  · intro d e hde
    simp only [moveTarget, Prod.mk.injEq] at hde
    exact Prod.ext (by omega) (by omega)
  · decide

theorem mem_driftTargets {s t : Coord} :
    t ∈ driftTargets s ↔
      t = (s.1, s.2) ∨ t = (s.1, s.2 - 1) ∨ t = (s.1, s.2 + 1) ∨
      t = (s.1 - 1, s.2) ∨ t = (s.1 + 1, s.2) := by
  simp only [driftTargets, driftOffsets, List.map_cons, List.map_nil, moveTarget,
    List.mem_cons, List.not_mem_nil, or_false, Prod.ext_iff]
  omega

theorem self_mem_driftTargets (s : Coord) : s ∈ driftTargets s := by
  rw [mem_driftTargets]
  left
  rfl

theorem validNextStates_nodup (w h : ℕ) (bs : List Coord) (s : Coord) :
    (validNextStates w h bs s).Nodup :=
  (driftTargets_nodup s).filter _

theorem mem_validNextStates {w h : ℕ} {bs : List Coord} {s t : Coord} :
    t ∈ validNextStates w h bs s ↔
      t ∈ driftTargets s ∧ t ∈ gwStates w h bs ∧ t ∉ bs := by
  simp [validNextStates, List.mem_filter, and_assoc]

/-- C10 core: the state itself is always a valid drift target (offset
`(0, 0)`). -/
theorem self_mem_validNextStates {w h : ℕ} {bs : List Coord} {s : Coord}
    (hs : s ∈ gwStates w h bs) : s ∈ validNextStates w h bs s := by
  rw [mem_validNextStates]
  exact ⟨self_mem_driftTargets s, hs, (mem_gwStates.mp hs).2⟩

theorem gwSucc_mem_states {w h : ℕ} {bs : List Coord} {s : Coord} (a : GWAction)
    (hs : s ∈ gwStates w h bs) : gwSucc w h bs s a ∈ gwStates w h bs := by
  unfold gwSucc
  split
  · exact hs
  · next hcond =>
    push_neg at hcond
    exact hcond.1

theorem graphSucc_mem_states {w h : ℕ} {bs : List Coord} {s : Coord} (a : Coord)
    (hs : s ∈ gwStates w h bs) : graphSucc w h bs s a ∈ gwStates w h bs := by
  unfold graphSucc
  split
  · exact hs
  · next hcond =>
    push_neg at hcond
    exact hcond.1

theorem gwSucc_mem_driftTargets (w h : ℕ) (bs : List Coord) (s : Coord) (a : GWAction) :
    gwSucc w h bs s a ∈ driftTargets s := by
  unfold gwSucc
  split
  · exact self_mem_driftTargets s
  · rw [mem_driftTargets]
    cases a <;> simp [gwDelta, moveTarget, Prod.ext_iff] <;> omega

/-- The deterministic Gridworld successor is always a valid drift target:
this is what makes the redistribution pass conserve mass. -/
theorem gwSucc_mem_validNextStates {w h : ℕ} {bs : List Coord} {s : Coord} (a : GWAction)
    (hs : s ∈ gwStates w h bs) : gwSucc w h bs s a ∈ validNextStates w h bs s := by
  rw [mem_validNextStates]
  have hmem := gwSucc_mem_states a hs
  exact ⟨gwSucc_mem_driftTargets w h bs s a, hmem, (mem_gwStates.mp hmem).2⟩

theorem validNextStates_length_pos {w h : ℕ} {bs : List Coord} {s : Coord}
    (hs : s ∈ gwStates w h bs) : 0 < (validNextStates w h bs s).length :=
  List.length_pos.mpr (fun hnil => by
    have := self_mem_validNextStates hs
    rw [hnil] at this
    exact List.not_mem_nil _ this)

/-! ### Pointwise evaluation of the four built kernels -/

theorem gwKernel_eval (w h : ℕ) (bs : List Coord) (canStay : Bool)
    (s : Coord) (a : GWAction) (t : Coord) :
    gwKernel w h bs canStay s a t =
      if s ∈ gwStates w h bs ∧ a ∈ gwActions canStay then
        (if t = gwSucc w h bs s a then 1 else 0)
      else 0 := by
  rw [gwKernel,
    detFill_eval _ _ ((gwStates_nodup w h bs).product (gwActions_nodup canStay))]
  simp [List.mem_product]

theorem graphKernel_eval (w h : ℕ) (bs : List Coord) (r : ℕ) (canStay : Bool)
    (s : Coord) (a : Coord) (t : Coord) :
    graphKernel w h bs r canStay s a t =
      if s ∈ gwStates w h bs ∧ a ∈ graphActions r canStay then
        (if t = graphSucc w h bs s a then 1 else 0)
      else 0 := by
  rw [graphKernel,
    detFill_eval _ _ ((gwStates_nodup w h bs).product (graphActions_nodup r canStay))]
  simp [List.mem_product]

theorem twActions_nodup (canStay : Bool) : (twActions canStay).Nodup := by
  cases canStay <;> decide

theorem taskSpace_nodup (n : ℕ) : (taskSpace n).Nodup := by
  induction n with
  | zero => decide
  | succ n ih =>
    simp only [taskSpace, List.flatMap_cons, List.flatMap_nil, List.append_nil]
    apply List.Nodup.append
    · exact ih.map (fun u v huv => by simpa using huv)
    · exact ih.map (fun u v huv => by simpa using huv)
    · intro v hvf hvt
      rcases List.mem_map.mp hvf with ⟨u, _, rfl⟩
      rcases List.mem_map.mp hvt with ⟨u', _, habs⟩
      simp at habs

theorem twStates_nodup (w h : ℕ) (bs : List Coord) (n : ℕ) : (twStates w h bs n).Nodup :=
  (gwStates_nodup w h bs).product (taskSpace_nodup n)

theorem twKernel_eval (w h : ℕ) (bs : List Coord) (taskLocs : List Coord) (canStay : Bool)
    (s : TWState) (a : TWAction) (t : TWState) :
    twKernel w h bs taskLocs canStay s a t =
      if s ∈ twStates w h bs taskLocs.length ∧ a ∈ twActions canStay then
        (if t = twSucc w h bs taskLocs s a then 1 else 0)
      else 0 := by
  rw [twKernel,
    detFill_eval _ _ ((twStates_nodup w h bs taskLocs.length).product (twActions_nodup canStay))]
  simp [List.mem_product]

theorem noisyUpdate_row (w h : ℕ) (bs : List Coord) (noise : ℚ)
    (K : Kernel Coord GWAction) (s : Coord) (a : GWAction) (t : Coord) :
    noisyUpdate w h bs noise K s a s a t =
      if t ∈ validNextStates w h bs s then
        K s a t * (1 - noise) + noise / ((validNextStates w h bs s).length : ℚ)
      else if t ∈ driftTargets s ∧ t ∈ gwStates w h bs then K s a t * (1 - noise)
      else K s a t := by
  simp only [noisyUpdate, addPass, scalePass]
  rw [addFold_eval _ _ _ _ (validNextStates_nodup w h bs s),
    scaleFold_eval _ _ _ _ _ (driftTargets_nodup s)]
  by_cases hv : t ∈ validNextStates w h bs s
  · have hd : t ∈ driftTargets s ∧ t ∈ gwStates w h bs :=
      ⟨(mem_validNextStates.mp hv).1, (mem_validNextStates.mp hv).2.1⟩
    simp [hv, hd]
  · simp [hv]

theorem noisyUpdate_other (w h : ℕ) (bs : List Coord) (noise : ℚ)
    (K : Kernel Coord GWAction) (s : Coord) (a : GWAction) (u : Coord) (b : GWAction)
    (t : Coord) (hne : u ≠ s ∨ b ≠ a) :
    noisyUpdate w h bs noise K s a u b t = K u b t := by
  simp only [noisyUpdate, addPass, scalePass]
  rw [addFold_other _ _ _ _ _ u b t hne, scaleFold_other _ _ _ _ _ _ u b t hne]

theorem noisyKernel_eval (w h : ℕ) (bs : List Coord) (canStay : Bool) (noise : ℚ)
    (s : Coord) (a : GWAction) (t : Coord) :
    noisyKernel w h bs canStay noise s a t =
      if s ∈ gwStates w h bs ∧ a ∈ gwActions canStay then
        (if t ∈ validNextStates w h bs s then
          gwKernel w h bs canStay s a t * (1 - noise)
            + noise / ((validNextStates w h bs s).length : ℚ)
         else if t ∈ driftTargets s ∧ t ∈ gwStates w h bs then
          gwKernel w h bs canStay s a t * (1 - noise)
         else gwKernel w h bs canStay s a t)
      else gwKernel w h bs canStay s a t := by
  have h := foldl_rowLocal_eval
    (fun K s a => noisyUpdate w h bs noise K s a)
    (fun s a row t =>
      if t ∈ validNextStates w h bs s then
        row t * (1 - noise) + noise / ((validNextStates w h bs s).length : ℚ)
      else if t ∈ driftTargets s ∧ t ∈ gwStates w h bs then row t * (1 - noise)
      else row t)
    (fun K s a u b t hne => noisyUpdate_other w h bs noise K s a u b t hne)
    (fun K s a t => noisyUpdate_row w h bs noise K s a t)
    (gwStates w h bs ×ˢ gwActions canStay)
    ((gwStates_nodup w h bs).product (gwActions_nodup canStay))
    (gwKernel w h bs canStay) s a t
  rw [noisyKernel, h]
  simp [List.mem_product]

/-! ### Row sums -/

theorem rowSum_eq_finset {σ α : Type} [DecidableEq σ] (S : List σ) (hS : S.Nodup)
    (K : Kernel σ α) (s : σ) (a : α) :
    rowSum S K s a = ∑ t in S.toFinset, K s a t := by
  rw [rowSum, ← List.sum_toFinset _ hS]

theorem sum_indicator_toFinset {σ : Type} [DecidableEq σ] (S : Finset σ) (x : σ)
    (hx : x ∈ S) (c : ℚ) : (∑ t in S, if t = x then c else 0) = c := by
  rw [Finset.sum_ite_eq' S x fun _ => c]
  exact if_pos hx

theorem gwKernel_rowSum (w h : ℕ) (bs : List Coord) (canStay : Bool) {s : Coord}
    {a : GWAction} (hs : s ∈ gwStates w h bs) (ha : a ∈ gwActions canStay) :
    rowSum (gwStates w h bs) (gwKernel w h bs canStay) s a = 1 := by
  rw [rowSum_eq_finset _ (gwStates_nodup w h bs)]
  have hval : ∀ t ∈ (gwStates w h bs).toFinset,
      gwKernel w h bs canStay s a t = if t = gwSucc w h bs s a then 1 else 0 := by
    intro t _
    rw [gwKernel_eval, if_pos ⟨hs, ha⟩]
  rw [Finset.sum_congr rfl hval]
  exact sum_indicator_toFinset _ _ (List.mem_toFinset.mpr (gwSucc_mem_states a hs)) 1

theorem graphKernel_rowSum (w h : ℕ) (bs : List Coord) (r : ℕ) (canStay : Bool) {s : Coord}
    {a : Coord} (hs : s ∈ gwStates w h bs) (ha : a ∈ graphActions r canStay) :
    rowSum (gwStates w h bs) (graphKernel w h bs r canStay) s a = 1 := by
  rw [rowSum_eq_finset _ (gwStates_nodup w h bs)]
  have hval : ∀ t ∈ (gwStates w h bs).toFinset,
      graphKernel w h bs r canStay s a t = if t = graphSucc w h bs s a then 1 else 0 := by
    intro t _
    rw [graphKernel_eval, if_pos ⟨hs, ha⟩]
  rw [Finset.sum_congr rfl hval]
  exact sum_indicator_toFinset _ _ (List.mem_toFinset.mpr (graphSucc_mem_states a hs)) 1

theorem mem_taskSpace {n : ℕ} {v : List Bool} : v ∈ taskSpace n ↔ v.length = n := by
  induction n generalizing v with
  | zero =>
    simp [taskSpace, List.length_eq_zero]
  | succ n ih =>
    cases v with
    | nil => simp [taskSpace]
    | cons b v =>
      simp only [taskSpace, List.mem_flatMap, List.mem_map, List.length_cons]
      constructor
      · rintro ⟨c, _, v', hv', hv⟩
        simp only [List.cons.injEq] at hv
        obtain ⟨rfl, rfl⟩ := hv
        rw [ih.mp hv']
      · intro hlen
        exact ⟨b, by cases b <;> simp, v, ih.mpr (by omega), rfl⟩

theorem twSucc_mem_states {w h : ℕ} {bs taskLocs : List Coord} {st : TWState} (a : TWAction)
    (hst : st ∈ twStates w h bs taskLocs.length) :
    twSucc w h bs taskLocs st a ∈ twStates w h bs taskLocs.length := by
  obtain ⟨loc, task⟩ := st
  rw [twStates, List.mem_product] at hst
  rw [twStates, twSucc, List.mem_product]
  constructor
  · dsimp only
    split
    · exact hst.1
    · next hcond =>
      push_neg at hcond
      exact hcond.1
  · dsimp only
    rw [mem_taskSpace]
    split
    · rw [List.length_set]
      exact mem_taskSpace.mp hst.2
    · exact mem_taskSpace.mp hst.2

theorem twKernel_rowSum (w h : ℕ) (bs : List Coord) (taskLocs : List Coord) (canStay : Bool)
    {st : TWState} {a : TWAction} (hst : st ∈ twStates w h bs taskLocs.length)
    (ha : a ∈ twActions canStay) :
    rowSum (twStates w h bs taskLocs.length) (twKernel w h bs taskLocs canStay) st a = 1 := by
  rw [rowSum_eq_finset _ (twStates_nodup w h bs taskLocs.length)]
  have hval : ∀ t ∈ (twStates w h bs taskLocs.length).toFinset,
      twKernel w h bs taskLocs canStay st a t =
        if t = twSucc w h bs taskLocs st a then 1 else 0 := by
    intro t _
    rw [twKernel_eval, if_pos ⟨hst, ha⟩]
  rw [Finset.sum_congr rfl hval]
  exact sum_indicator_toFinset _ _ (List.mem_toFinset.mpr (twSucc_mem_states a hst)) 1

theorem noisyKernel_rowSum (w h : ℕ) (bs : List Coord) (canStay : Bool) (noise : ℚ)
    {s : Coord} {a : GWAction} (hs : s ∈ gwStates w h bs) (ha : a ∈ gwActions canStay) :
    rowSum (gwStates w h bs) (noisyKernel w h bs canStay noise) s a = 1 := by
  have hVsub : (validNextStates w h bs s).toFinset ⊆ (gwStates w h bs).toFinset := by
    intro t ht
    rw [List.mem_toFinset] at ht ⊢
    exact (mem_validNextStates.mp ht).2.1
  have hsuccV : gwSucc w h bs s a ∈ validNextStates w h bs s :=
    gwSucc_mem_validNextStates a hs
  have hsuccS : gwSucc w h bs s a ∈ gwStates w h bs := gwSucc_mem_states a hs
  have hlenPos : 0 < (validNextStates w h bs s).length := validNextStates_length_pos hs
  have hlen : ((validNextStates w h bs s).length : ℚ) ≠ 0 :=
    Nat.cast_ne_zero.mpr (by omega)
  have hsa : s ∈ gwStates w h bs ∧ a ∈ gwActions canStay := ⟨hs, ha⟩
  have hval : ∀ t ∈ (gwStates w h bs).toFinset,
      noisyKernel w h bs canStay noise s a t =
        (if t = gwSucc w h bs s a then (1 : ℚ) else 0)
          + (if t ∈ (validNextStates w h bs s).toFinset then
              noise / ((validNextStates w h bs s).length : ℚ)
                - noise * (if t = gwSucc w h bs s a then (1 : ℚ) else 0)
            else 0) := by
    intro t htS
    rw [List.mem_toFinset] at htS
    rw [noisyKernel_eval, gwKernel_eval, if_pos hsa, if_pos hsa]
    by_cases hv : t ∈ validNextStates w h bs s
    · simp only [List.mem_toFinset, hv, if_true]
      ring
    · have hnd : ¬(t ∈ driftTargets s ∧ t ∈ gwStates w h bs) := by
        rintro ⟨hdt, htS2⟩
        exact hv (mem_validNextStates.mpr ⟨hdt, htS2, (mem_gwStates.mp htS2).2⟩)
      simp only [List.mem_toFinset, hv, hnd, if_false]
      ring
  rw [rowSum_eq_finset _ (gwStates_nodup w h bs), Finset.sum_congr rfl hval,
    Finset.sum_add_distrib,
    sum_indicator_toFinset _ _ (List.mem_toFinset.mpr hsuccS) 1,
    Finset.sum_ite_mem, Finset.inter_eq_right.mpr hVsub,
    Finset.sum_sub_distrib, Finset.sum_const,
    List.toFinset_card_of_nodup (validNextStates_nodup w h bs s),
    ← Finset.mul_sum,
    sum_indicator_toFinset _ _ (List.mem_toFinset.mpr hsuccV) 1,
    nsmul_eq_mul]
  field_simp

/-! ### Successor characterisations and blocked-cell exclusion -/

theorem gwSucc_spec (w h : ℕ) (bs : List Coord) (s : Coord) (a : GWAction) :
    gwSucc w h bs s a =
      if inBounds w h (moveTarget s (gwDelta a)) ∧ moveTarget s (gwDelta a) ∉ bs
      then moveTarget s (gwDelta a) else s := by
  unfold gwSucc
  by_cases hc : inBounds w h (moveTarget s (gwDelta a)) ∧ moveTarget s (gwDelta a) ∉ bs
  · rw [if_pos hc, if_neg]
    push_neg
    exact ⟨mem_gwStates.mpr hc, hc.2⟩
  · rw [if_neg hc, if_pos]
    by_cases hb : moveTarget s (gwDelta a) ∈ bs
    · right
      exact hb
    · left
      intro hmem
      exact hc ⟨(mem_gwStates.mp hmem).1, hb⟩

theorem graphSucc_spec (w h : ℕ) (bs : List Coord) (s : Coord) (a : Coord) :
    graphSucc w h bs s a =
      if inBounds w h (moveTarget s a) ∧ moveTarget s a ∉ bs
      then moveTarget s a else s := by
  unfold graphSucc
  by_cases hc : inBounds w h (moveTarget s a) ∧ moveTarget s a ∉ bs
  · rw [if_pos hc, if_neg]
    push_neg
    exact ⟨mem_gwStates.mpr hc, hc.2⟩
  · rw [if_neg hc, if_pos]
    by_cases hb : moveTarget s a ∈ bs
    · right
      exact hb
    · left
      intro hmem
      exact hc ⟨(mem_gwStates.mp hmem).1, hb⟩

theorem blocked_not_mem_gwStates {w h : ℕ} {bs : List Coord} {b : Coord} (hb : b ∈ bs) :
    b ∉ gwStates w h bs :=
  fun hmem => (mem_gwStates.mp hmem).2 hb

theorem gwKernel_blocked_zero {w h : ℕ} {bs : List Coord} (canStay : Bool) {b : Coord}
    (hb : b ∈ bs) (s : Coord) (a : GWAction) : gwKernel w h bs canStay s a b = 0 := by
  rw [gwKernel_eval]
  split
  · next hsa =>
    rw [if_neg]
    intro heq
    have hmem := gwSucc_mem_states a hsa.1
    rw [← heq] at hmem
    exact (mem_gwStates.mp hmem).2 hb
  · rfl

theorem graphKernel_blocked_zero {w h : ℕ} {bs : List Coord} (r : ℕ) (canStay : Bool)
    {b : Coord} (hb : b ∈ bs) (s : Coord) (a : Coord) :
    graphKernel w h bs r canStay s a b = 0 := by
  rw [graphKernel_eval]
  split
  · next hsa =>
    rw [if_neg]
    intro heq
    have hmem := graphSucc_mem_states a hsa.1
    rw [← heq] at hmem
    exact (mem_gwStates.mp hmem).2 hb
  · rfl

theorem noisyKernel_blocked_zero {w h : ℕ} {bs : List Coord} (canStay : Bool) (noise : ℚ)
    {b : Coord} (hb : b ∈ bs) (s : Coord) (a : GWAction) :
    noisyKernel w h bs canStay noise s a b = 0 := by
  rw [noisyKernel_eval]
  have hgw : gwKernel w h bs canStay s a b = 0 := gwKernel_blocked_zero canStay hb s a
  split
  · have hbv : b ∉ validNextStates w h bs s :=
      fun hv => (mem_validNextStates.mp hv).2.2 hb
    have hbd : ¬(b ∈ driftTargets s ∧ b ∈ gwStates w h bs) :=
      fun hc => (mem_gwStates.mp hc.2).2 hb
    rw [if_neg hbv, if_neg hbd, hgw]
  · exact hgw

theorem blocked_not_mem_twStates {w h : ℕ} {bs : List Coord} {b : Coord} (hb : b ∈ bs)
    (numTasks : ℕ) (v : List Bool) : (b, v) ∉ twStates w h bs numTasks := by
  rw [twStates, List.mem_product]
  rintro ⟨hbL, _⟩
  exact (mem_gwStates.mp hbL).2 hb

theorem twSucc_fst_mem {w h : ℕ} {bs taskLocs : List Coord} {st : TWState} (a : TWAction)
    (hst : st.1 ∈ twLocations w h bs) :
    (twSucc w h bs taskLocs st a).1 ∈ twLocations w h bs := by
  rw [twSucc]
  dsimp only
  split
  · exact hst
  · next hcond =>
    push_neg at hcond
    exact hcond.1

theorem twKernel_blocked_zero {w h : ℕ} {bs taskLocs : List Coord} (canStay : Bool)
    {b : Coord} (hb : b ∈ bs) (st : TWState) (a : TWAction) (v : List Bool) :
    twKernel w h bs taskLocs canStay st a (b, v) = 0 := by
  obtain ⟨loc, task⟩ := st
  rw [twKernel_eval]
  split
  · next hsa =>
    rw [if_neg]
    intro heq
    have hst : (loc, task).1 ∈ twLocations w h bs := by
      have hmem2 := hsa.1
      rw [twStates, List.mem_product] at hmem2
      exact hmem2.1
    have hmem := @twSucc_fst_mem w h bs taskLocs (loc, task) a hst
    rw [← heq] at hmem
    exact (mem_gwStates.mp hmem).2 hb
  · rfl

/-! ### NoisyGridworld refinement at the extreme noise levels -/

theorem noisyKernel_noise_zero (w h : ℕ) (bs : List Coord) (canStay : Bool) :
    noisyKernel w h bs canStay 0 = gwKernel w h bs canStay := by
  funext s a t
  rw [noisyKernel_eval]
  split
  · split
    · simp
    · split <;> simp
  · rfl

theorem noisyKernel_noise_one {w h : ℕ} {bs : List Coord} {canStay : Bool} {s : Coord}
    {a : GWAction} (hs : s ∈ gwStates w h bs) (ha : a ∈ gwActions canStay) (t : Coord) :
    noisyKernel w h bs canStay 1 s a t =
      if t ∈ validNextStates w h bs s
      then 1 / ((validNextStates w h bs s).length : ℚ) else 0 := by
  rw [noisyKernel_eval, if_pos ⟨hs, ha⟩]
  by_cases hv : t ∈ validNextStates w h bs s
  · rw [if_pos hv, if_pos hv]
    simp
  · rw [if_neg hv, if_neg hv]
    have hne : t ≠ gwSucc w h bs s a := by
      intro heq
      exact hv (heq ▸ gwSucc_mem_validNextStates a hs)
    split
    · simp
    · rw [gwKernel_eval, if_pos ⟨hs, ha⟩, if_neg hne]

/-! ### State-space counting and mask-shape behaviour of construction -/

theorem taskSpace_length (n : ℕ) : (taskSpace n).length = 2 ^ n := by
  induction n with
  | zero => rfl
  | succ n ih =>
    simp only [taskSpace, List.flatMap_cons, List.flatMap_nil, List.append_nil,
      List.length_append, List.length_map, ih]
    ring

theorem length_filter_not {α : Type} (p : α → Bool) :
    ∀ l : List α, (l.filter (fun x => ! p x)).length = l.length - (l.filter p).length := by
  intro l
  induction l with
  | nil => rfl
  | cons x l ih =>
    by_cases hx : p x
    · simp [List.filter_cons, hx, ih]
    · have hlen : (l.filter p).length ≤ l.length := List.length_filter_le p l
      simp only [List.filter_cons, hx]
      simp only [Bool.not_false, if_true]
      simp [List.length_cons, ih]
      omega

theorem collectBlocked_eq_none_iff (m : BlockedMask) :
    ∀ l : List Coord, (collectBlocked m l = none ↔ ∃ p ∈ l, m.get p.1 p.2 = none) := by
  intro l
  induction l with
  | nil => simp [collectBlocked]
  | cons p rest ih =>
    cases hget : m.get p.1 p.2 with
    | none =>
      simp only [collectBlocked, hget]
      exact ⟨fun _ => ⟨p, List.mem_cons_self p rest, hget⟩, fun _ => trivial⟩
    | some v =>
      simp only [collectBlocked, hget, Option.map_eq_none', ih, List.mem_cons]
      constructor
      · rintro ⟨q, hq, hqn⟩
        exact ⟨q, Or.inr hq, hqn⟩
      · rintro ⟨q, hq | hq, hqn⟩
        · rw [hq, hget] at hqn
          exact absurd hqn (by simp)
        · exact ⟨q, hq, hqn⟩

theorem collectBlocked_eq_filter (m : BlockedMask) :
    ∀ l : List Coord, (∀ p ∈ l, (m.get p.1 p.2).isSome) →
      collectBlocked m l = some (l.filter (fun p => decide (m.entry p.1 p.2 ≠ 0))) := by
  intro l
  induction l with
  | nil =>
    intro _
    rfl
  | cons p rest ih =>
    intro hall
    have hp := hall p (List.mem_cons_self p rest)
    have hbounds : 0 ≤ p.1 ∧ p.1 < (m.w : ℤ) ∧ 0 ≤ p.2 ∧ p.2 < (m.h : ℤ) := by
      by_contra hc
      rw [BlockedMask.get, if_neg hc] at hp
      exact absurd hp (by simp)
    have hget : m.get p.1 p.2 = some (m.entry p.1 p.2) := by
      rw [BlockedMask.get, if_pos hbounds]
    simp only [collectBlocked, hget, ih (fun q hq => hall q (List.mem_cons_of_mem p hq)),
      List.filter_cons]
    by_cases hv : m.entry p.1 p.2 ≠ 0
    · simp [hv]
    · simp [hv]

theorem collectBlocked_none_iff_small (m : BlockedMask) (w h : ℕ) (hw : 0 < w)
    (hh : 0 < h) : collectBlocked m (gridStates w h) = none ↔ m.w < w ∨ m.h < h := by
  rw [collectBlocked_eq_none_iff]
  constructor
  · rintro ⟨p, hp, hget⟩
    have hpb := mem_gridStates.mp hp
    rw [inBounds] at hpb
    obtain ⟨h1, h2, h3, h4⟩ := hpb
    rw [BlockedMask.get] at hget
    by_cases hc : 0 ≤ p.1 ∧ p.1 < (m.w : ℤ) ∧ 0 ≤ p.2 ∧ p.2 < (m.h : ℤ)
    · rw [if_pos hc] at hget
      exact absurd hget (by simp)
    · push_neg at hc
      by_cases hd : p.1 < (m.w : ℤ)
      · have hm := hc h1 hd h3
        right
        omega
      · left
        omega
  · intro hlt
    rcases hlt with hlt | hlt
    · refine ⟨((m.w : ℤ), 0), mem_gridStates.mpr ?_, ?_⟩
      · rw [inBounds]
        dsimp only
        omega
      · rw [BlockedMask.get]
        split
        · next hcond =>
          dsimp only at hcond
          omega
        · rfl
    · refine ⟨(0, (m.h : ℤ)), mem_gridStates.mpr ?_, ?_⟩
      · rw [inBounds]
        dsimp only
        omega
      · rw [BlockedMask.get]
        split
        · next hcond =>
          dsimp only at hcond
          omega
        · rfl

theorem twLocations_length (w h : ℕ) (m : BlockedMask) (bs : List Coord)
    (hbs : collectBlocked m (gridStates w h) = some bs) :
    (twLocations w h bs).length = w * h - bs.length := by
  have hall : ∀ p ∈ gridStates w h, (m.get p.1 p.2).isSome := by
    intro p hp
    cases hget : m.get p.1 p.2 with
    | none =>
      have hnone : collectBlocked m (gridStates w h) = none :=
        (collectBlocked_eq_none_iff m _).mpr ⟨p, hp, hget⟩
      rw [hnone] at hbs
      exact absurd hbs (by simp)
    | some v => rfl
  have hfilter := collectBlocked_eq_filter m (gridStates w h) hall
  rw [hbs] at hfilter
  have hbs2 : bs = (gridStates w h).filter (fun p => decide (m.entry p.1 p.2 ≠ 0)) :=
    Option.some_injective _ hfilter
  rw [twLocations, gwStates_eq_filter]
  have hcong : ∀ p ∈ gridStates w h,
      (decide (p ∉ bs)) = (! decide (m.entry p.1 p.2 ≠ 0)) := by
    intro p hp
    by_cases hv : m.entry p.1 p.2 ≠ 0
    · rw [hbs2]
      simp [List.mem_filter, hp, hv]
    · rw [hbs2]
      simp [List.mem_filter, hv]
  rw [List.filter_congr hcong, length_filter_not, gridStates_length]
  rw [hbs2]

/-! ### The claims -/

/-- Claim C1: for every built world (GraphWorld, Gridworld, NoisyGridworld,
Taskworld) and every (state, action) pair of its state and action spaces, the
kernel row over the state space sums to exactly 1 (hence within any
tolerance); in particular the NoisyGridworld redistribution pass conserves
total probability mass for every noise level between 0 and 1. -/
theorem claim_C1_row_sums :
    (∀ (w h : ℕ) (bs : List Coord) (r : ℕ) (canStay : Bool) (s a : Coord),
        s ∈ gwStates w h bs → a ∈ graphActions r canStay →
        rowSum (gwStates w h bs) (graphKernel w h bs r canStay) s a = 1)
    ∧ (∀ (w h : ℕ) (bs : List Coord) (canStay : Bool) (s : Coord) (a : GWAction),
        s ∈ gwStates w h bs → a ∈ gwActions canStay →
        rowSum (gwStates w h bs) (gwKernel w h bs canStay) s a = 1)
    ∧ (∀ (w h : ℕ) (bs : List Coord) (canStay : Bool) (noise : ℚ),
        0 ≤ noise → noise ≤ 1 →
        ∀ (s : Coord) (a : GWAction), s ∈ gwStates w h bs → a ∈ gwActions canStay →
        rowSum (gwStates w h bs) (noisyKernel w h bs canStay noise) s a = 1)
    ∧ (∀ (w h : ℕ) (bs taskLocs : List Coord) (canStay : Bool) (st : TWState)
        (a : TWAction),
        st ∈ twStates w h bs taskLocs.length → a ∈ twActions canStay →
        rowSum (twStates w h bs taskLocs.length) (twKernel w h bs taskLocs canStay) st a
          = 1) := by
  refine ⟨?_, ?_, ?_, ?_⟩
  · intro w h bs r canStay s a hs ha
    exact graphKernel_rowSum w h bs r canStay hs ha
  · intro w h bs canStay s a hs ha
    exact gwKernel_rowSum w h bs canStay hs ha
  · intro w h bs canStay noise _ _ s a hs ha
    exact noisyKernel_rowSum w h bs canStay noise hs ha
  · intro w h bs taskLocs canStay st a hst ha
    exact twKernel_rowSum w h bs taskLocs canStay hst ha

/-- Claim C2: GraphWorld and Gridworld kernels are deterministic: the row of
any (state, action) pair of the spaces assigns 1 to the single successor —
the state shifted by the action's offset when that target is in-bounds and
unblocked, the state itself otherwise — and 0 to every other state; in
particular a Gridworld `left` action from any state (0, y) self-transitions
with probability 1. -/
theorem claim_C2_deterministic :
    (∀ (w h : ℕ) (bs : List Coord) (r : ℕ) (canStay : Bool) (s a : Coord),
        s ∈ gwStates w h bs → a ∈ graphActions r canStay →
        ∀ t : Coord,
          graphKernel w h bs r canStay s a t =
            if t = (if inBounds w h (moveTarget s a) ∧ moveTarget s a ∉ bs
                    then moveTarget s a else s) then 1 else 0)
    ∧ (∀ (w h : ℕ) (bs : List Coord) (canStay : Bool) (s : Coord) (a : GWAction),
        s ∈ gwStates w h bs → a ∈ gwActions canStay →
        ∀ t : Coord,
          gwKernel w h bs canStay s a t =
            if t = (if inBounds w h (moveTarget s (gwDelta a))
                      ∧ moveTarget s (gwDelta a) ∉ bs
                    then moveTarget s (gwDelta a) else s) then 1 else 0)
    ∧ (∀ (w h : ℕ) (bs : List Coord) (canStay : Bool) (y : ℤ),
        ((0 : ℤ), y) ∈ gwStates w h bs →
        ∀ t : Coord,
          gwKernel w h bs canStay ((0 : ℤ), y) GWAction.left t =
            if t = ((0 : ℤ), y) then 1 else 0) := by
  refine ⟨?_, ?_, ?_⟩
  · intro w h bs r canStay s a hs ha t
    rw [graphKernel_eval, if_pos ⟨hs, ha⟩, graphSucc_spec]
  · intro w h bs canStay s a hs ha t
    rw [gwKernel_eval, if_pos ⟨hs, ha⟩, gwSucc_spec]
  · intro w h bs canStay y hs t
    have hleft : GWAction.left ∈ gwActions canStay := by
      cases canStay <;> decide
    have hsucc : gwSucc w h bs ((0 : ℤ), y) GWAction.left = ((0 : ℤ), y) := by
      rw [gwSucc_spec, if_neg]
      rintro ⟨hib, -⟩
      rw [inBounds] at hib
      obtain ⟨h1, -⟩ := hib
      simp only [moveTarget, gwDelta] at h1
      omega
    rw [gwKernel_eval, if_pos ⟨hs, hleft⟩, hsucc]

/-- Claim C3: a blocked coordinate never appears in the constructed state
space of any of the four builders (for Taskworld, not even as the location
component of a state), and no kernel row of any of the four built kernels
puts positive probability on a blocked successor. -/
theorem claim_C3_blocked_excluded :
    ∀ (w h : ℕ) (bs : List Coord) (b : Coord), b ∈ bs →
      b ∉ gwStates w h bs
      ∧ (∀ (numTasks : ℕ) (v : List Bool), (b, v) ∉ twStates w h bs numTasks)
      ∧ (∀ (r : ℕ) (canStay : Bool) (s a : Coord),
          graphKernel w h bs r canStay s a b = 0)
      ∧ (∀ (canStay : Bool) (s : Coord) (a : GWAction),
          gwKernel w h bs canStay s a b = 0)
      ∧ (∀ (canStay : Bool) (noise : ℚ) (s : Coord) (a : GWAction),
          noisyKernel w h bs canStay noise s a b = 0)
      ∧ (∀ (taskLocs : List Coord) (canStay : Bool) (st : TWState) (a : TWAction)
          (v : List Bool), twKernel w h bs taskLocs canStay st a (b, v) = 0) := by
  intro w h bs b hb
  exact ⟨blocked_not_mem_gwStates hb,
    fun numTasks v => blocked_not_mem_twStates hb numTasks v,
    fun r canStay s a => graphKernel_blocked_zero r canStay hb s a,
    fun canStay s a => gwKernel_blocked_zero canStay hb s a,
    fun canStay noise s a => noisyKernel_blocked_zero canStay noise hb s a,
    fun taskLocs canStay st a v => twKernel_blocked_zero canStay hb st a v⟩

/-- Claim C4: with noise 0 the NoisyGridworld kernel coincides cell for cell
with the Gridworld kernel built from the same parameters; with noise 1 every
(state, action) row of the spaces is the uniform distribution over the valid
drift targets of the state (the deterministic outcome's original mass is
gone: it receives the same uniform share as every other valid target). -/
theorem claim_C4_noise_refinement :
    (∀ (w h : ℕ) (bs : List Coord) (canStay : Bool),
        noisyKernel w h bs canStay 0 = gwKernel w h bs canStay)
    ∧ (∀ (w h : ℕ) (bs : List Coord) (canStay : Bool) (s : Coord) (a : GWAction),
        s ∈ gwStates w h bs → a ∈ gwActions canStay →
        ∀ t : Coord,
          noisyKernel w h bs canStay 1 s a t =
            if t ∈ validNextStates w h bs s
            then 1 / ((validNextStates w h bs s).length : ℚ) else 0) :=
  ⟨noisyKernel_noise_zero,
    fun _ _ _ _ _ _ hs ha t => noisyKernel_noise_one hs ha t⟩

/-- Claim C5: a Taskworld built from a w × h shape, a blocked mask and a task
list has exactly (w·h − number of blocked cells) · 2^numTasks states: the
full cross product of the unblocked locations with all boolean
task-completion vectors. -/
theorem claim_C5_state_count :
    ∀ (w h : ℕ) (m : BlockedMask) (bs taskLocs : List Coord),
      collectBlocked m (gridStates w h) = some bs →
      (twStates w h bs taskLocs.length).length
        = (w * h - bs.length) * 2 ^ taskLocs.length := by
  intro w h m bs taskLocs hbs
  rw [twStates, List.length_product, taskSpace_length, twLocations_length w h m bs hbs]

/-- Claim C6: for any Taskworld state ((x, y), task), the `operate` successor
keeps the location; at a task location it sets that task's completion bit to
true and otherwise leaves the vector unchanged; and the operate step is
idempotent on the task vector. -/
theorem claim_C6_operate :
    ∀ (w h : ℕ) (bs taskLocs : List Coord) (loc : Coord) (task : List Bool),
      (loc, task) ∈ twStates w h bs taskLocs.length →
      (twSucc w h bs taskLocs (loc, task) TWAction.operate).1 = loc
      ∧ (loc ∈ taskLocs →
          (twSucc w h bs taskLocs (loc, task) TWAction.operate).2 =
            task.set (taskLocs.indexOf loc) true)
      ∧ (loc ∉ taskLocs →
          (twSucc w h bs taskLocs (loc, task) TWAction.operate).2 = task)
      ∧ (twSucc w h bs taskLocs
            (loc, (twSucc w h bs taskLocs (loc, task) TWAction.operate).2)
            TWAction.operate).2
          = (twSucc w h bs taskLocs (loc, task) TWAction.operate).2 := by
  intro w h bs taskLocs loc task _
  refine ⟨?_, ?_, ?_, ?_⟩
  · simp [twSucc, twDelta, moveTarget]
  · intro hl
    simp [twSucc, hl]
  · intro hl
    simp [twSucc, hl]
  · by_cases hl : loc ∈ taskLocs
    · simp [twSucc, hl, List.set_set]
    · simp [twSucc, hl]

/-- Claim C10: the valid-drift-target set of the NoisyGridworld
redistribution pass is never empty for a state of the state space — the
state itself is always a valid target via the (0, 0) offset — so the
division noise / len(valid_next_states) never divides by zero. -/
theorem claim_C10_valid_nonempty :
    ∀ (w h : ℕ) (bs : List Coord) (s : Coord), s ∈ gwStates w h bs →
      s ∈ validNextStates w h bs s ∧ 0 < (validNextStates w h bs s).length :=
  fun _ _ _ _ hs => ⟨self_mem_validNextStates hs, validNextStates_length_pos hs⟩

/-- Claim C7: `act` looks up the current state's and action's indices,
samples a next-state index from that kernel row, moves the cursor to exactly
that sampled state and returns that same state, leaving every other field of
the environment unchanged; `reset` restores the designated initial state
whatever the cursor held, leaving kernel, spaces and terminal set
unchanged. -/
theorem claim_C7_act_reset {σ α : Type} [DecidableEq σ] [DecidableEq α]
    (env : EnvModel σ α) (action : α) (u : ℚ) (si ai : ℕ) (s' : σ)
    (hs : env.stateSpace.indexValue env.currentState = some si)
    (ha : env.actionSpace.indexValue action = some ai)
    (hn : env.stateSpace.elementValue (sampleRow env si ai u) = some s') :
    (env.act action u).1 = Except.ok s'
    ∧ (env.act action u).2.currentState = s'
    ∧ (env.act action u).2.stateSpace = env.stateSpace
    ∧ (env.act action u).2.actionSpace = env.actionSpace
    ∧ (env.act action u).2.transition = env.transition
    ∧ (env.act action u).2.terminalStates = env.terminalStates
    ∧ (env.act action u).2.initialState = env.initialState
    ∧ env.reset.currentState = env.initialState
    ∧ env.reset.stateSpace = env.stateSpace
    ∧ env.reset.actionSpace = env.actionSpace
    ∧ env.reset.transition = env.transition
    ∧ env.reset.terminalStates = env.terminalStates := by
  have hact : env.act action u = (Except.ok s', { env with currentState := s' }) := by
    rw [EnvModel.act]
    simp only [hs, ha, hn]
  rw [hact]
  exact ⟨rfl, rfl, rfl, rfl, rfl, rfl, rfl, rfl, rfl, rfl, rfl, rfl⟩

/-- Claim C8: calling `act` with an action outside the action space fails
with a LookupError raised by the action-space index lookup, and the
environment (in particular the current-state cursor) comes back unchanged. -/
theorem claim_C8_invalid_action {σ α : Type} [DecidableEq σ] [DecidableEq α]
    (env : EnvModel σ α) (action : α) (u : ℚ)
    (hcur : env.currentState ∈ env.stateSpace.elems)
    (hbad : action ∉ env.actionSpace.elems) :
    env.act action u = (Except.error PyError.lookupError, env) := by
  have hs : env.stateSpace.indexValue env.currentState
      = some (env.stateSpace.elems.indexOf env.currentState) := by
    rw [DiscreteSpace.indexValue, if_pos hcur]
  have ha : env.actionSpace.indexValue action = none := by
    rw [DiscreteSpace.indexValue, if_neg hbad]
  rw [EnvModel.act]
  simp only [hs, ha]

/-- Claim C9, counterexample: a 2 × 2 all-zero mask disagrees with the
declared 1 × 1 shape, yet Gridworld construction succeeds (the extra mask
entries are silently ignored), so a mask-shape mismatch does not always fail
at construction time. -/
theorem claim_C9_counterexample :
    ((BlockedMask.mk 2 2 (fun _ _ => 0)).w, (BlockedMask.mk 2 2 (fun _ _ => 0)).h) ≠ (1, 1)
    ∧ gridworldBuild 1 1 (some (BlockedMask.mk 2 2 (fun _ _ => 0))) ≠ none := by
  constructor
  · decide
  · intro hnone
    have : collectBlocked (BlockedMask.mk 2 2 (fun _ _ => 0)) (gridStates 1 1)
        = some [] := by decide
    rw [gridworldBuild, this] at hnone
    exact absurd hnone (by simp)

/-- Claim C9, amended: for a positive declared shape, Gridworld construction
with a mask fails (with the IndexError, a LookupError subclass, raised by the
out-of-range mask read) precisely when the mask is smaller than the declared
shape in some dimension; masks at least as large as the shape in both
dimensions are accepted and their out-of-grid entries ignored. -/
theorem claim_C9_amended :
    ∀ (w h : ℕ) (m : BlockedMask), 0 < w → 0 < h →
      (gridworldBuild w h (some m) = none ↔ m.w < w ∨ m.h < h) := by
  intro w h m hw hh
  rw [gridworldBuild, Option.map_eq_none', collectBlocked_none_iff_small m w h hw hh]

/-! ### Concrete instantiations of the claims -/

theorem claim_C1_witness :
    rowSum (gwStates 2 2 []) (graphKernel 2 2 [] 1 true) ((0 : ℤ), (0 : ℤ))
        ((1 : ℤ), (0 : ℤ)) = 1
    ∧ rowSum (gwStates 2 2 []) (gwKernel 2 2 [] true) ((0 : ℤ), (0 : ℤ)) GWAction.up = 1
    ∧ rowSum (gwStates 2 2 []) (noisyKernel 2 2 [] true (1 / 2)) ((0 : ℤ), (0 : ℤ))
        GWAction.up = 1
    ∧ rowSum (twStates 2 2 [] 1) (twKernel 2 2 [] [((0 : ℤ), (0 : ℤ))] true)
        (((0 : ℤ), (0 : ℤ)), [false]) TWAction.operate = 1 :=
  ⟨claim_C1_row_sums.1 2 2 [] 1 true _ _ (by decide) (by decide),
    claim_C1_row_sums.2.1 2 2 [] true _ _ (by decide) (by decide),
    claim_C1_row_sums.2.2.1 2 2 [] true (1 / 2) (by norm_num) (by norm_num) _ _
      (by decide) (by decide),
    claim_C1_row_sums.2.2.2 2 2 [] [((0 : ℤ), (0 : ℤ))] true _ _ (by decide) (by decide)⟩

theorem claim_C2_witness :
    graphKernel 2 2 [] 1 true ((0 : ℤ), (0 : ℤ)) ((1 : ℤ), (0 : ℤ)) ((1 : ℤ), (0 : ℤ)) = 1
    ∧ gwKernel 2 2 [] true ((0 : ℤ), (0 : ℤ)) GWAction.right ((1 : ℤ), (0 : ℤ)) = 1
    ∧ gwKernel 2 2 [] true ((0 : ℤ), (1 : ℤ)) GWAction.left ((0 : ℤ), (1 : ℤ)) = 1 := by
  refine ⟨?_, ?_, ?_⟩
  · rw [claim_C2_deterministic.1 2 2 [] 1 true _ _ (by decide) (by decide)]
    norm_num [inBounds, moveTarget]
  · rw [claim_C2_deterministic.2.1 2 2 [] true _ _ (by decide) (by decide)]
    norm_num [inBounds, moveTarget, gwDelta]
  · rw [claim_C2_deterministic.2.2 2 2 [] true 1 (by decide)]
    norm_num

theorem claim_C3_witness :
    ((0 : ℤ), (0 : ℤ)) ∉ gwStates 2 2 [((0 : ℤ), (0 : ℤ))]
    ∧ (((0 : ℤ), (0 : ℤ)), [false]) ∉ twStates 2 2 [((0 : ℤ), (0 : ℤ))] 1
    ∧ graphKernel 2 2 [((0 : ℤ), (0 : ℤ))] 1 true ((1 : ℤ), (1 : ℤ)) ((-1 : ℤ), (-1 : ℤ))
        ((0 : ℤ), (0 : ℤ)) = 0
    ∧ gwKernel 2 2 [((0 : ℤ), (0 : ℤ))] true ((1 : ℤ), (1 : ℤ)) GWAction.up
        ((0 : ℤ), (0 : ℤ)) = 0
    ∧ noisyKernel 2 2 [((0 : ℤ), (0 : ℤ))] true (1 / 2) ((1 : ℤ), (1 : ℤ)) GWAction.up
        ((0 : ℤ), (0 : ℤ)) = 0
    ∧ twKernel 2 2 [((0 : ℤ), (0 : ℤ))] [((1 : ℤ), (1 : ℤ))] true
        (((1 : ℤ), (1 : ℤ)), [false]) TWAction.operate (((0 : ℤ), (0 : ℤ)), [false]) = 0 := by
  have h := claim_C3_blocked_excluded 2 2 [((0 : ℤ), (0 : ℤ))] ((0 : ℤ), (0 : ℤ)) (by decide)
  exact ⟨h.1, h.2.1 1 [false], h.2.2.1 1 true _ _, h.2.2.2.1 true _ _,
    h.2.2.2.2.1 true (1 / 2) _ _, h.2.2.2.2.2 [((1 : ℤ), (1 : ℤ))] true _ _ [false]⟩

theorem claim_C4_witness :
    noisyKernel 2 2 [] true 0 = gwKernel 2 2 [] true
    ∧ noisyKernel 2 2 [] true 1 ((0 : ℤ), (0 : ℤ)) GWAction.up ((0 : ℤ), (0 : ℤ))
        = 1 / 3 := by
  constructor
  · exact claim_C4_noise_refinement.1 2 2 [] true
  · have hmem : ((0 : ℤ), (0 : ℤ)) ∈ validNextStates 2 2 [] ((0 : ℤ), (0 : ℤ)) := by
      decide
    have hlen : (validNextStates 2 2 [] ((0 : ℤ), (0 : ℤ))).length = 3 := by decide
    rw [claim_C4_noise_refinement.2 2 2 [] true _ _ (by decide) (by decide),
      if_pos hmem, hlen]
    norm_num

theorem claim_C5_witness :
    (twStates 3 3 [] 2).length = (3 * 3 - 0) * 2 ^ 2 := by
  have h := claim_C5_state_count 3 3 (BlockedMask.mk 3 3 (fun _ _ => 0)) []
    [((0 : ℤ), (0 : ℤ)), ((1 : ℤ), (1 : ℤ))] (by decide)
  simpa using h

theorem claim_C6_witness :
    (twSucc 2 2 [] [((0 : ℤ), (0 : ℤ))] (((0 : ℤ), (0 : ℤ)), [false]) TWAction.operate).1
        = ((0 : ℤ), (0 : ℤ))
    ∧ (twSucc 2 2 [] [((0 : ℤ), (0 : ℤ))] (((0 : ℤ), (0 : ℤ)), [false]) TWAction.operate).2
        = [false].set ([((0 : ℤ), (0 : ℤ))].indexOf ((0 : ℤ), (0 : ℤ))) true
    ∧ (twSucc 2 2 [] [((0 : ℤ), (0 : ℤ))]
          (((0 : ℤ), (0 : ℤ)),
            (twSucc 2 2 [] [((0 : ℤ), (0 : ℤ))] (((0 : ℤ), (0 : ℤ)), [false])
              TWAction.operate).2)
          TWAction.operate).2
        = (twSucc 2 2 [] [((0 : ℤ), (0 : ℤ))] (((0 : ℤ), (0 : ℤ)), [false])
            TWAction.operate).2 := by
  have h := claim_C6_operate 2 2 [] [((0 : ℤ), (0 : ℤ))] ((0 : ℤ), (0 : ℤ)) [false]
    (by decide)
  exact ⟨h.1, h.2.1 (by decide), h.2.2.2⟩

/-- A small concrete environment over natural-number states and actions, used
to exercise `act` and `reset` at concrete inputs. -/
def sampleEnv : EnvModel ℕ ℕ :=
  ⟨⟨[0, 1]⟩, ⟨[5]⟩, fun _ _ k => if k = 1 then 1 else 0, [], 0, 0⟩

theorem claim_C7_witness :
    (sampleEnv.act 5 0).1 = Except.ok 1
    ∧ (sampleEnv.act 5 0).2.currentState = 1
    ∧ (sampleEnv.act 5 0).2.stateSpace = sampleEnv.stateSpace
    ∧ (sampleEnv.act 5 0).2.actionSpace = sampleEnv.actionSpace
    ∧ (sampleEnv.act 5 0).2.transition = sampleEnv.transition
    ∧ (sampleEnv.act 5 0).2.terminalStates = sampleEnv.terminalStates
    ∧ (sampleEnv.act 5 0).2.initialState = sampleEnv.initialState
    ∧ sampleEnv.reset.currentState = sampleEnv.initialState
    ∧ sampleEnv.reset.stateSpace = sampleEnv.stateSpace
    ∧ sampleEnv.reset.actionSpace = sampleEnv.actionSpace
    ∧ sampleEnv.reset.transition = sampleEnv.transition
    ∧ sampleEnv.reset.terminalStates = sampleEnv.terminalStates :=
  claim_C7_act_reset sampleEnv 5 0 0 0 1 (by decide) (by decide)
    (by norm_num [sampleEnv, sampleRow, sampleScan, DiscreteSpace.elementValue,
      DiscreteSpace.size, List.range_succ])

theorem claim_C8_witness :
    sampleEnv.act 7 0 = (Except.error PyError.lookupError, sampleEnv) :=
  claim_C8_invalid_action sampleEnv 7 0 (by decide) (by decide)

theorem claim_C9_witness :
    gridworldBuild 1 1 (some (BlockedMask.mk 0 0 (fun _ _ => 0))) = none
      ↔ ((0 : ℕ) < 1 ∨ (0 : ℕ) < 1) :=
  claim_C9_amended 1 1 (BlockedMask.mk 0 0 (fun _ _ => 0)) (by decide) (by decide)

theorem claim_C10_witness :
    ((0 : ℤ), (0 : ℤ)) ∈ validNextStates 2 2 [] ((0 : ℤ), (0 : ℤ))
    ∧ 0 < (validNextStates 2 2 [] ((0 : ℤ), (0 : ℤ))).length :=
  claim_C10_valid_nonempty 2 2 [] ((0 : ℤ), (0 : ℤ)) (by decide)

end OnlineIRL
